import Mathlib

/-!
Verification of the WDK wallet IPC core.

Shallow embedding of the length-prefixed framing codec, the JSON-RPC
request/response handling of the Swift `WDKClient` and the JavaScript
`wdk-worklet`, the RPC handlers (`initializeWDK`, `dispose`), the request-id
counter, and a model of the Shamir secret-sharing module, together with
theorems settling the specification claims about them.

Byte streams are modelled as `List ℕ` (each entry one byte).  Machine
`UInt32` arithmetic is modelled with `ℕ` and explicit `% 256` / bounds.
-/

namespace Framing

/-- `writeUInt32BE`: the 4-byte big-endian encoding of `n` (JS
`length.writeUInt32BE(data.length, 0)`, Swift `UInt32(data.count).bigEndian`). -/
def be32 (n : ℕ) : List ℕ :=
  [n / 2 ^ 24 % 256, n / 2 ^ 16 % 256, n / 2 ^ 8 % 256, n % 256]

/-- `readUInt32BE(0)`: read the first four buffered bytes as a big-endian
unsigned 32-bit value. -/
def readUInt32BE (b : List ℕ) : ℕ :=
  b.getD 0 0 * 2 ^ 24 + b.getD 1 0 * 2 ^ 16 + b.getD 2 0 * 2 ^ 8 + b.getD 3 0

/-- `writeFramed` (`wdk-worklet.js` and `WDKClient.swift`): prepend the 4-byte
big-endian length prefix to the payload. -/
def writeFramed (data : List ℕ) : List ℕ :=
  be32 data.length ++ data

/-- The frame-extraction loop of `processFramedData` (`wdk-worklet.js`):
while at least 4 bytes are buffered and the buffer holds the declared
`4 + length` bytes, slice out the payload and continue on the remaining
buffer; otherwise stop, returning the emitted payloads and the leftover
buffer. -/
def frames (buf : List ℕ) : List (List ℕ) × List ℕ :=
  if h : 4 ≤ buf.length ∧ 4 + readUInt32BE buf ≤ buf.length then
    let n := readUInt32BE buf
    let msg := (buf.drop 4).take n
    let r := frames (buf.drop (4 + n))
    (msg :: r.1, r.2)
  else
    ([], buf)
termination_by buf.length
decreasing_by
  simp only [List.length_drop]
  omega

/-- Repeated calls of `processFramedData`: the leftover buffer persists across
`feed` calls (`readBuffer` in `wdk-worklet.js`); returns all emitted payloads
in order together with the final buffer. -/
def feedAll (st : List ℕ) : List (List ℕ) → List (List ℕ) × List ℕ
  | [] => ([], st)
  | c :: cs =>
    let r := frames (st ++ c)
    let r' := feedAll r.2 cs
    (r.1 ++ r'.1, r'.2)

theorem be32_length (n : ℕ) : (be32 n).length = 4 := rfl

theorem readUInt32BE_be32_append (n : ℕ) (hn : n < 2 ^ 32) (t : List ℕ) :
    readUInt32BE (be32 n ++ t) = n := by
  simp only [be32, readUInt32BE, List.cons_append, List.getD_cons_zero,
    List.getD_cons_succ]
  omega

theorem readUInt32BE_append (b c : List ℕ) (hb : 4 ≤ b.length) :
    readUInt32BE (b ++ c) = readUInt32BE b := by
  match b, hb with
  | b0 :: b1 :: b2 :: b3 :: rest, _ => rfl

theorem frames_of_neg (b : List ℕ)
    (h : ¬(4 ≤ b.length ∧ 4 + readUInt32BE b ≤ b.length)) :
    frames b = ([], b) := by
  rw [frames, dif_neg h]

theorem frames_nil : frames [] = ([], []) := by
  apply frames_of_neg
  simp

/-- The decoder is incremental: decoding `b ++ c` extracts first everything
extractable from `b`, then continues with the leftover of `b` prefixed to
`c`. -/
theorem frames_append (b c : List ℕ) :
    frames (b ++ c) =
      ((frames b).1 ++ (frames ((frames b).2 ++ c)).1,
        (frames ((frames b).2 ++ c)).2) := by
  generalize hk : b.length = k
  induction k using Nat.strong_induction_on generalizing b c with
  | _ k ih =>
    by_cases h : 4 ≤ b.length ∧ 4 + readUInt32BE b ≤ b.length
    · obtain ⟨h4, hn⟩ := h
      have hr : readUInt32BE (b ++ c) = readUInt32BE b :=
        readUInt32BE_append _ _ h4
      have hcond : 4 ≤ (b ++ c).length ∧
          4 + readUInt32BE (b ++ c) ≤ (b ++ c).length := by
        simp only [List.length_append, hr]
        omega
      have hmsg : ((b ++ c).drop 4).take (readUInt32BE b)
          = (b.drop 4).take (readUInt32BE b) := by
        rw [List.drop_append_of_le_length (by omega),
          List.take_append_of_le_length (by simp; omega)]
      have hrest : (b ++ c).drop (4 + readUInt32BE b)
          = b.drop (4 + readUInt32BE b) ++ c :=
        List.drop_append_of_le_length (by omega)
      have hlt : (b.drop (4 + readUInt32BE b)).length < k := by
        simp only [List.length_drop]
        omega
      rw [frames, dif_pos hcond, frames, dif_pos ⟨h4, hn⟩]
      simp only [hr, hmsg, hrest]
      rw [ih _ hlt _ c rfl]
      simp
    · rw [frames_of_neg b h]
      simp

theorem frames_drained (b : List ℕ) :
    frames ((frames b).2) = ([], (frames b).2) := by
  generalize hk : b.length = k
  induction k using Nat.strong_induction_on generalizing b with
  | _ k ih =>
    by_cases h : 4 ≤ b.length ∧ 4 + readUInt32BE b ≤ b.length
    · have hstep : (frames b).2 = (frames (b.drop (4 + readUInt32BE b))).2 := by
        rw [frames, dif_pos h]
      have hlt : (b.drop (4 + readUInt32BE b)).length < k := by
        simp only [List.length_drop]
        omega
      rw [hstep]
      exact ih _ hlt _ rfl
    · rw [frames_of_neg b h]
      exact frames_of_neg b h

/-- Feeding chunks one at a time is the same as decoding the whole
concatenated stream, provided the starting buffer is drained. -/
theorem feedAll_eq_frames (cs : List (List ℕ)) :
    ∀ st, frames st = ([], st) → feedAll st cs = frames (st ++ cs.flatten) := by
  induction cs with
  | nil =>
    intro st hst
    simp [feedAll, hst]
  | cons c cs ih =>
    intro st hst
    have hdr : frames ((frames (st ++ c)).2) = ([], (frames (st ++ c)).2) :=
      frames_drained (st ++ c)
    simp only [feedAll, List.flatten_cons]
    rw [ih _ hdr, ← List.append_assoc, frames_append (st ++ c) cs.flatten]

/-- Decoding the concatenation of encoded payloads yields exactly the
payloads, with an empty leftover buffer. -/
theorem frames_flatten_encode (ps : List (List ℕ))
    (hp : ∀ p ∈ ps, p.length < 2 ^ 32) :
    frames ((ps.map writeFramed).flatten) = (ps, []) := by
  induction ps with
  | nil => simpa using frames_nil
  | cons p ps ih =>
    have hplen : p.length < 2 ^ 32 := hp p (List.mem_cons_self p ps)
    have hrest := ih (fun q hq => hp q (List.mem_cons_of_mem p hq))
    simp only [List.map_cons, List.flatten_cons, writeFramed, List.append_assoc]
    have hr : readUInt32BE (be32 p.length ++ (p ++ (ps.map writeFramed).flatten))
        = p.length := readUInt32BE_be32_append _ hplen _
    have hlen : (be32 p.length ++ (p ++ (ps.map writeFramed).flatten)).length
        = 4 + p.length + ((ps.map writeFramed).flatten).length := by
      simp [be32]
      omega
    have hcond : 4 ≤ (be32 p.length ++ (p ++ (ps.map writeFramed).flatten)).length ∧
        4 + readUInt32BE (be32 p.length ++ (p ++ (ps.map writeFramed).flatten))
          ≤ (be32 p.length ++ (p ++ (ps.map writeFramed).flatten)).length := by
      rw [hr, hlen]
      omega
    rw [frames, dif_pos hcond]
    simp only [hr]
    have hdrop4 : (be32 p.length ++ (p ++ (ps.map writeFramed).flatten)).drop 4
        = p ++ (ps.map writeFramed).flatten :=
      List.drop_append_of_le_length (le_of_eq (be32_length p.length).symm)
    have hmsg : ((be32 p.length ++ (p ++ (ps.map writeFramed).flatten)).drop 4).take
        p.length = p := by
      rw [hdrop4, List.take_append_of_le_length le_rfl, List.take_length]
    have hdroprest : (be32 p.length ++ (p ++ (ps.map writeFramed).flatten)).drop
        (4 + p.length) = (ps.map writeFramed).flatten := by
      rw [← List.drop_drop, hdrop4, List.drop_append_of_le_length le_rfl,
        List.drop_length, List.nil_append]
    rw [hmsg, hdroprest, hrest]

end Framing

/-- C2: feeding the concatenation of the encodings of payloads `p1..pn` to the
frame decoder emits exactly `[p1,...,pn]` in order, with an empty leftover
buffer, and the result is the same for every way the concatenated bytes are
split into chunks (any `cs` whose concatenation equals the encoded stream).
This covers single-byte chunks, splits inside the 4-byte length prefix, and
feeding everything at once, and includes empty payloads. -/
theorem framing_chunking_invariance (ps cs : List (List ℕ))
    (hp : ∀ p ∈ ps, p.length < 2 ^ 32)
    (hc : cs.flatten = (ps.map Framing.writeFramed).flatten) :
    Framing.feedAll [] cs = (ps, []) := by
  rw [Framing.feedAll_eq_frames cs [] Framing.frames_nil, List.nil_append, hc]
  exact Framing.frames_flatten_encode ps hp

/-- Witness for C2 at a concrete input: the empty payload followed by `[7, 8]`,
encoded and then fed in chunks that split both length prefixes. -/
theorem framing_chunking_invariance_witness :
    Framing.feedAll [] [[0], [0], [0], [0], [0, 0], [0, 2], [7], [8]]
      = ([[], [7, 8]], []) :=
  framing_chunking_invariance [[], [7, 8]]
    [[0], [0], [0], [0], [0, 0], [0, 2], [7], [8]] (by decide) (by decide)

namespace WDKClient

/-- The length-validation guard of `WDKClient.readFramed`
(`guard length > 0 && length < 10_000_000`). -/
def swiftLengthValid (n : ℕ) : Bool :=
  decide (0 < n ∧ n < 10000000)

/-- `WDKClient.readFramed`, against the total byte stream the peer sends:
read the 4-byte length header, validate it, then read exactly that many
payload bytes; running out of stream models the connection closing
mid-read. The length guard runs before any payload byte is read. -/
def readFramed (stream : List ℕ) : Except String (List ℕ × List ℕ) :=
  if 4 ≤ stream.length then
    let n := Framing.readUInt32BE stream
    if swiftLengthValid n then
      if 4 + n ≤ stream.length then
        .ok ((stream.drop 4).take n, stream.drop (4 + n))
      else .error "Connection closed while reading"
    else .error ("Invalid message length: " ++ toString n)
  else .error "Connection closed while reading"

/-- The error object of a JSON-RPC response as `WDKClient.call` reads it:
both `code` and `message` may be absent. -/
structure SwiftErrorObj where
  code : Option String
  message : Option String
deriving DecidableEq

/-- A decoded response as `WDKClient.call` sees it. -/
structure SwiftResponse (α : Type) where
  id : Option ℕ
  error : Option SwiftErrorObj
  result : Option α
deriving DecidableEq

/-- The possible outcomes of the response-processing tail of
`WDKClient.call`. -/
inductive CallOutcome (α : Type) where
  | ok (result : α)
  | rpcError (code message : String)
  | invalidResponse (message : String)
deriving DecidableEq

/-- The response-handling tail of `WDKClient.call` (part_007 lines 126-145):
after sending the request with id `requestId`, the next decoded frame is
taken as the response; if it has an `error` object the call throws
`rpcError`, else if it has a `result` the call resolves with it, else
`invalidResponse`.  The frame's own `id` is never consulted. -/
def callHandleResponse {α : Type} (requestId : ℕ) (resp : SwiftResponse α) :
    CallOutcome α :=
  match resp.error with
  | some e => .rpcError (e.code.getD "UNKNOWN") (e.message.getD "Unknown error")
  | none =>
    match resp.result with
    | some r => .ok r
    | none => .invalidResponse "Missing result in response"

/-- Modelled from the spec: the Correlator's matching rule — a response frame
resolves a pending call exactly when the frame's id equals that call's id;
otherwise that pending call is untouched.  (Stated for comparison with
`callHandleResponse`, which implements no such rule.) -/
def specResponseConsumes (pendingId frameId : ℕ) : Bool :=
  pendingId == frameId

/-- `WDKClient.nextRequestId`: increment the stored counter and return it.
The `DispatchQueue.sync` in the source makes this step atomic; any
interleaving of concurrent callers is some sequence of these atomic steps.
Returns (assigned id, new counter value). -/
def nextRequestId (requestId : ℕ) : ℕ × ℕ :=
  (requestId + 1, requestId + 1)

/-- The initial value of `WDKClient.requestId`. -/
def initialRequestId : ℕ := 0

/-- The ids assigned by `n` successive calls starting from counter state
`s`. -/
def runCalls : ℕ → ℕ → List ℕ
  | _, 0 => []
  | s, Nat.succ n => (nextRequestId s).1 :: runCalls (nextRequestId s).2 n

theorem runCalls_eq_range' (n : ℕ) : ∀ s, runCalls s n = List.range' (s + 1) n := by
  induction n with
  | zero => intro s; rfl
  | succ n ih =>
    intro s
    rw [List.range'_succ]
    simp only [runCalls, nextRequestId, ih]

end WDKClient

/-- C1 (counterexample): with the call for request id 1 blocked in
`readFramed`, a response frame bearing id 2 resolves that call with the
frame's payload (`callHandleResponse` returns `ok 42`), even though the
spec's matching rule says an id-2 frame must not consume the id-1 pending
call (`specResponseConsumes 1 2 = false`).  So the id-1 call does not
remain pending until its own response arrives, refuting the claim. -/
theorem correlator_match_counterexample :
    WDKClient.callHandleResponse (α := ℕ) 1 ⟨some 2, none, some 42⟩
        = WDKClient.CallOutcome.ok 42
    ∧ WDKClient.specResponseConsumes 1 2 = false :=
  ⟨rfl, rfl⟩

/-- C1 (amended): the client performs no id-based correlation at all: the
outcome of `WDKClient.call`'s response handling depends only on the frame's
`error` and `result` fields, never on the request id it sent nor on the
frame's id.  Whichever call is reading consumes the next frame; no frame is
discarded as unmatched. -/
theorem correlator_amended {α : Type} (reqId reqId' : ℕ)
    (r r' : WDKClient.SwiftResponse α)
    (he : r.error = r'.error) (hres : r.result = r'.result) :
    WDKClient.callHandleResponse reqId r = WDKClient.callHandleResponse reqId' r' := by
  simp only [WDKClient.callHandleResponse, he, hres]

/-- Witness for the amended C1 at concrete inputs: two different request ids
and two frames with different frame ids but the same payload give the same
outcome. -/
theorem correlator_amended_witness :
    WDKClient.callHandleResponse (α := ℕ) 1 ⟨some 2, none, some 5⟩
      = WDKClient.callHandleResponse (α := ℕ) 2 ⟨some 9, none, some 5⟩ :=
  correlator_amended 1 2 _ _ rfl rfl

/-- C3 (counterexample): the claim says a declared length of exactly
10,000,000 is accepted; the Swift client's guard
(`length > 0 && length < 10_000_000`) rejects it. -/
theorem framing_max_counterexample :
    WDKClient.swiftLengthValid 10000000 = false := by decide

/-- C3 (amended): neither encoder enforces the 10,000,000-byte maximum
(`writeFramed` frames any payload, its output is always `payload + 4` bytes);
the JS decoder accepts any declared length (any payload below the u32 limit
round-trips); the Swift client's decoder validates the declared length
before reading any payload byte, accepting exactly the range
`0 < n < 10,000,000` — so a declared length of exactly 10,000,000 is
rejected, as is 0. -/
theorem framing_max_amended :
    (∀ data : List ℕ, (Framing.writeFramed data).length = data.length + 4)
    ∧ (∀ p : List ℕ, p.length < 2 ^ 32 →
        Framing.frames (Framing.writeFramed p) = ([p], []))
    ∧ (∀ n : ℕ, WDKClient.swiftLengthValid n = true ↔ 0 < n ∧ n < 10000000)
    ∧ (∀ stream : List ℕ, 4 ≤ stream.length →
        WDKClient.swiftLengthValid (Framing.readUInt32BE stream) = false →
        WDKClient.readFramed stream
          = .error ("Invalid message length: "
              ++ toString (Framing.readUInt32BE stream))) := by
  refine ⟨?_, ?_, ?_, ?_⟩
  · intro data
    simp [Framing.writeFramed, Framing.be32]
  · intro p hp
    have h := Framing.frames_flatten_encode [p] (by simpa using hp)
    simpa using h
  · intro n
    simp [WDKClient.swiftLengthValid]
  · intro stream h4 hval
    rw [WDKClient.readFramed, if_pos h4]
    simp only [hval, Bool.false_eq_true, if_false]

/-- Witness for the amended C3 at concrete inputs: a 10,000,001-byte payload
is encoded (not refused) and decoded by the JS side, and the Swift client
rejects a header declaring exactly 10,000,000 before reading any payload. -/
theorem framing_max_amended_witness :
    Framing.frames (Framing.writeFramed (List.replicate 10000001 0))
      = ([List.replicate 10000001 0], [])
    ∧ WDKClient.readFramed (Framing.be32 10000000)
      = .error ("Invalid message length: "
          ++ toString (Framing.readUInt32BE (Framing.be32 10000000))) :=
  ⟨framing_max_amended.2.1 _ (by norm_num),
    framing_max_amended.2.2.2 _ (by decide) (by decide)⟩

/-- C4: evaluating the code at the failing input.  Encoding the empty payload
produces exactly the 4-byte prefix `00 00 00 00`, and the JS decoder accepts
it and emits the empty payload; but the Swift client's `readFramed` rejects
declared length 0 (`guard length > 0`), throwing
"Invalid message length: 0" — contradicting FRAMING.md's "minimum message
size: 0 bytes (empty message)" and the claim that both sides accept it. -/
theorem zero_length_frame_eval :
    Framing.writeFramed [] = [0, 0, 0, 0]
    ∧ Framing.frames [0, 0, 0, 0] = ([[]], [])
    ∧ WDKClient.swiftLengthValid 0 = false
    ∧ WDKClient.readFramed [0, 0, 0, 0]
      = .error "Invalid message length: 0" := by
  refine ⟨rfl, ?_, rfl, rfl⟩
  rw [Framing.frames, dif_pos (by decide)]
  simp [Framing.readUInt32BE, Framing.frames_nil]

/-- C7: the request-id counter starts at 0 and the first call is assigned
id 1; every call increments the counter by exactly one and returns the new
value; the ids assigned by `n` successive (serialized, atomic) calls are
exactly `[1, ..., n]` — strictly increasing and pairwise distinct, so two
callers never receive the same id. -/
theorem requestId_strictly_increasing (n : ℕ) :
    WDKClient.runCalls WDKClient.initialRequestId n = List.range' 1 n
    ∧ (WDKClient.runCalls WDKClient.initialRequestId n).Nodup
    ∧ List.Chain' (· < ·) (WDKClient.runCalls WDKClient.initialRequestId n)
    ∧ (∀ s, WDKClient.nextRequestId s = (s + 1, s + 1))
    ∧ (WDKClient.nextRequestId WDKClient.initialRequestId).1 = 1 := by
  have h := WDKClient.runCalls_eq_range' n WDKClient.initialRequestId
  have h1 : WDKClient.initialRequestId + 1 = 1 := rfl
  rw [h1] at h
  refine ⟨h, ?_, ?_, fun s => rfl, rfl⟩
  · rw [h]
    exact (List.pairwise_lt_range' _ _).nodup
  · rw [h]
    exact (List.pairwise_lt_range' _ _).chain'


namespace WdkWorklet

/-- Modelled from the spec (`exceptions/rpc-exception.js` is not under the
sources): a structured error as produced by `withErrorHandling` /
`createStructuredError` and decoded again in `handleJsonRpcMessage`'s catch
branch — a stable `code` string, a human-readable `message`, optional
`data`.  The JSON stringify/parse round trip through the thrown `Error`'s
message is the identity on these fields and is elided. -/
structure StructuredError where
  message : String
  code : String
  data : Option String
deriving DecidableEq

/-- Outcome of a handler already wrapped by `withErrorHandling`: it either
returns a value or throws, and every throw carries a structured error
(plain errors get code `INTERNAL_ERROR` in the catch branch). -/
inductive HandlerResult (α : Type) where
  | ok (value : α)
  | thrown (e : StructuredError)
deriving DecidableEq

/-- A decoded JSON-RPC request envelope (`{jsonrpc, id, method, params}`);
`id` may be absent. -/
structure JsonRpcRequest (π : Type) where
  jsonrpc : String
  id : Option ℕ
  method : String
  params : π
deriving DecidableEq

/-- A JSON-RPC response envelope as written back by the worklet. -/
structure JsonRpcResponse (α : Type) where
  id : Option ℕ
  result : Option α
  error : Option StructuredError
deriving DecidableEq

/-- The nine handlers reachable from `handleJsonRpcMessage`'s method switch,
abstract over params `π`, result values `α` and the worklet context `γ`
(the handlers themselves call into the external wallet library). -/
structure Handlers (π α γ : Type) where
  workletStart : γ → γ × HandlerResult α
  generateEntropyAndEncrypt : π → γ → γ × HandlerResult α
  getMnemonicFromEntropy : π → γ → γ × HandlerResult α
  getSeedAndEntropyFromMnemonic : π → γ → γ × HandlerResult α
  initializeWDK : π → γ → γ × HandlerResult α
  callMethod : π → γ → γ × HandlerResult α
  registerWallet : π → γ → γ × HandlerResult α
  registerProtocol : π → γ → γ × HandlerResult α
  dispose : γ → γ × HandlerResult α

/-- Package a handler outcome as the single framed response write performed
by `handleJsonRpcMessage` (success envelope or error envelope, same id). -/
def respond {α : Type} (id : Option ℕ) (r : HandlerResult α) : JsonRpcResponse α :=
  match r with
  | .ok v => { id := id, result := some v, error := none }
  | .thrown e => { id := id, result := none, error := some e }

/-- The method names of `handleJsonRpcMessage`'s switch. -/
def knownMethods : List String :=
  ["workletStart", "generateEntropyAndEncrypt", "getMnemonicFromEntropy",
    "getSeedAndEntropyFromMnemonic", "initializeWDK", "callMethod",
    "registerWallet", "registerProtocol", "dispose"]

/-- `handleJsonRpcMessage` (`wdk-worklet.js` lines 97-183): dispatch on the
method name; on success write one success envelope, on a thrown error write
one error envelope, and for an unknown method write one error envelope with
message "Unknown method: ..." and code `INTERNAL_ERROR` (the plain-error
catch path).  Returns the updated context and the list of framed writes
performed. -/
def handleJsonRpcMessage {π α γ : Type} (hs : Handlers π α γ)
    (msg : JsonRpcRequest π) (ctx : γ) : γ × List (JsonRpcResponse α) :=
  match msg.method with
  | "workletStart" =>
    let r := hs.workletStart ctx
    (r.1, [respond msg.id r.2])
  | "generateEntropyAndEncrypt" =>
    let r := hs.generateEntropyAndEncrypt msg.params ctx
    (r.1, [respond msg.id r.2])
  | "getMnemonicFromEntropy" =>
    let r := hs.getMnemonicFromEntropy msg.params ctx
    (r.1, [respond msg.id r.2])
  | "getSeedAndEntropyFromMnemonic" =>
    let r := hs.getSeedAndEntropyFromMnemonic msg.params ctx
    (r.1, [respond msg.id r.2])
  | "initializeWDK" =>
    let r := hs.initializeWDK msg.params ctx
    (r.1, [respond msg.id r.2])
  | "callMethod" =>
    let r := hs.callMethod msg.params ctx
    (r.1, [respond msg.id r.2])
  | "registerWallet" =>
    let r := hs.registerWallet msg.params ctx
    (r.1, [respond msg.id r.2])
  | "registerProtocol" =>
    let r := hs.registerProtocol msg.params ctx
    (r.1, [respond msg.id r.2])
  | "dispose" =>
    let r := hs.dispose ctx
    (r.1, [respond msg.id r.2])
  | _ =>
    (ctx, [⟨msg.id, none, some ⟨"Unknown method: " ++ msg.method,
      "INTERNAL_ERROR", none⟩⟩])

/-- The message stage of `processFramedData` (`wdk-worklet.js` lines 73-84),
over the decoded payloads: parse each payload as JSON; on parse failure the
error is caught and logged and the frame is dropped; a parsed message is
dispatched only when its `jsonrpc` field is "2.0".  Returns the final
context and all response writes, in order. -/
def processMessages {π α γ : Type} (parse : List ℕ → Option (JsonRpcRequest π))
    (hs : Handlers π α γ) : γ → List (List ℕ) → γ × List (JsonRpcResponse α)
  | ctx, [] => (ctx, [])
  | ctx, payload :: rest =>
    match parse payload with
    | none => processMessages parse hs ctx rest
    | some m =>
      if m.jsonrpc = "2.0" then
        let r := handleJsonRpcMessage hs m ctx
        let r' := processMessages parse hs r.1 rest
        (r'.1, r.2 ++ r'.2)
      else processMessages parse hs ctx rest

/-- A concrete all-trivial handler set, used to instantiate witnesses. -/
def trivialHandlers : Handlers Unit Unit Unit where
  workletStart := fun c => (c, .ok ())
  generateEntropyAndEncrypt := fun _ c => (c, .ok ())
  getMnemonicFromEntropy := fun _ c => (c, .ok ())
  getSeedAndEntropyFromMnemonic := fun _ c => (c, .ok ())
  initializeWDK := fun _ c => (c, .ok ())
  callMethod := fun _ c => (c, .ok ())
  registerWallet := fun _ c => (c, .ok ())
  registerProtocol := fun _ c => (c, .ok ())
  dispose := fun c => (c, .ok ())

end WdkWorklet

theorem respond_spec {α : Type} (id : Option ℕ) (r : WdkWorklet.HandlerResult α) :
    (WdkWorklet.respond id r).id = id
    ∧ ((WdkWorklet.respond id r).result.isSome
        ↔ (WdkWorklet.respond id r).error = none) := by
  cases r <;> simp [WdkWorklet.respond]

/-- C5: every request envelope dispatched to the worker produces exactly one
response write, bearing the request's id, holding either a result or a
structured error (code and message strings); an unknown method name yields
the structured "Unknown method" error with code `INTERNAL_ERROR` — never a
crash (the model is total) and never a dropped request. -/
theorem dispatch_one_response {π α γ : Type} (hs : WdkWorklet.Handlers π α γ)
    (msg : WdkWorklet.JsonRpcRequest π) (ctx : γ) :
    ∃ w : WdkWorklet.JsonRpcResponse α,
      (WdkWorklet.handleJsonRpcMessage hs msg ctx).2 = [w]
      ∧ w.id = msg.id
      ∧ (w.result.isSome ↔ w.error = none)
      ∧ (msg.method ∉ WdkWorklet.knownMethods →
          w = ⟨msg.id, none,
            some ⟨"Unknown method: " ++ msg.method, "INTERNAL_ERROR", none⟩⟩) := by
  unfold WdkWorklet.handleJsonRpcMessage
  split
  all_goals first
    | (refine ⟨_, rfl, (respond_spec _ _).1, (respond_spec _ _).2, fun hmem => ?_⟩
       exact absurd (by simp_all [WdkWorklet.knownMethods]) hmem)
    | (refine ⟨_, rfl, rfl, by simp, fun _ => rfl⟩)

/-- Witness for C5 at a concrete input: the unknown method "nope" gets one
structured error response with the request's id. -/
theorem dispatch_one_response_witness :
    (WdkWorklet.handleJsonRpcMessage WdkWorklet.trivialHandlers
        ⟨"2.0", some 3, "nope", ()⟩ ()).2
      = [⟨some 3, none, some ⟨"Unknown method: nope", "INTERNAL_ERROR", none⟩⟩] := by
  obtain ⟨w, hw, _, _, hunk⟩ :=
    dispatch_one_response WdkWorklet.trivialHandlers ⟨"2.0", some 3, "nope", ()⟩ ()
  rw [hw, hunk (by decide)]
  decide

/-- C8 (counterexample): a decoded frame whose payload is not well-formed
JSON produces no response write at all — the frame is silently discarded
(the JS catch branch only logs), contrary to the claim that the failure is
reported back to the caller as a structured error response. -/
theorem malformed_json_counterexample :
    (WdkWorklet.processMessages (fun _ => none) WdkWorklet.trivialHandlers
        () [[123]]).2
      = ([] : List (WdkWorklet.JsonRpcResponse Unit)) := rfl

/-- C8 (amended): a frame with a malformed JSON payload is caught, logged and
silently discarded — no error response is written — and the connection
remains usable: processing continues with the remaining frames exactly as if
the bad frame had never arrived. -/
theorem malformed_json_amended {π α γ : Type}
    (parse : List ℕ → Option (WdkWorklet.JsonRpcRequest π))
    (hs : WdkWorklet.Handlers π α γ) (ctx : γ) (p : List ℕ) (ps : List (List ℕ))
    (hp : parse p = none) :
    WdkWorklet.processMessages parse hs ctx (p :: ps)
      = WdkWorklet.processMessages parse hs ctx ps := by
  simp [WdkWorklet.processMessages, hp]

/-- Witness for the amended C8 at a concrete input. -/
theorem malformed_json_amended_witness :
    WdkWorklet.processMessages (fun _ => none) WdkWorklet.trivialHandlers () [[1], [2]]
      = WdkWorklet.processMessages (fun _ => none) WdkWorklet.trivialHandlers () [[2]] :=
  malformed_json_amended _ _ () [1] [[2]] rfl

namespace RpcHandlers

/-- A wallet-library instance held in the Session Context slot.  `dispose()`
on the external instance is modelled by setting `disposed`. -/
structure WdkInstance where
  instId : ℕ
  disposed : Bool
deriving DecidableEq

/-- The worklet's Session Context: one mutable slot (`let wdk = null` in
`wdk-worklet.js`), read and written through the `context` object. -/
structure Context where
  wdk : Option WdkInstance
deriving DecidableEq

/-- A structured RPC error (message plus code). -/
structure RpcError where
  message : String
  code : String
deriving DecidableEq

/-- A `{ status: ... }` handler result. -/
structure StatusResult where
  status : String
deriving DecidableEq

/-- Shorthand for a `BAD_REQUEST` error. -/
def badRequest (m : String) : RpcError :=
  { message := m, code := "BAD_REQUEST" }

/-- The params of `initializeWDK` as destructured by the handler; a field
that is missing (or of the wrong type) is `none`.  A request that is not an
object at all is modelled as `none` at the call site. -/
structure InitParams where
  config : Option String
  encryptionKey : Option String
  encryptedSeed : Option String
deriving DecidableEq

/-- The parsed worklet config: for each configured network its name and
whether its config value is a non-null object, plus the names of configured
protocols. -/
structure WorkletConfig where
  networks : List (String × Bool)
  protocols : List String
deriving DecidableEq

/-- The statically defined wallet managers (`walletManagers` in
`rpc-handlers.js`). -/
def walletManagers : List String :=
  ["ethereum", "polygon", "arbitrum", "sepolia", "ethereum-erc4337", "solana"]

/-- `handlers.initializeWDK` (`rpc-handlers.js` lines 293-364).  External
collaborators not under the sources are abstracted: `parse` models
`validateJSON` (JSON.parse of the config string), `isBase64` models
`validateBase64`, `decryptOk` models whether `decrypt(encryptedSeed,
encryptionKey)` succeeds, and `newInst` is the instance built by
`new WDK(decryptedSeedBuffer)`.  The control flow is the source's: the
object check first; then — before any field validation — an existing
Session Context instance is disposed; then config / key / seed validation
(`BAD_REQUEST` on failure), the networks check, decryption, installation of
the new instance, and the register loops (`protocolManagers` is empty, so
any configured protocol is a `WDK_MANAGER_INIT` error). -/
def initializeWDK (parse : String → Option WorkletConfig)
    (isBase64 : String → Bool) (decryptOk : String → String → Bool)
    (newInst : WdkInstance) (init : Option InitParams) (context : Context) :
    Context × Except RpcError StatusResult :=
  match init with
  | none => (context, .error (badRequest "Init must be an object"))
  | some p =>
    let context1 : Context :=
      match context.wdk with
      | some w => { wdk := some { w with disposed := true } }
      | none => context
    match p.config with
    | none => (context1, .error (badRequest "config must be a non-empty string"))
    | some cfgStr =>
      if cfgStr = "" then
        (context1, .error (badRequest "config must be a non-empty string"))
      else
        match parse cfgStr with
        | none => (context1, .error (badRequest "config must be valid JSON"))
        | some cfg =>
          match p.encryptionKey, p.encryptedSeed with
          | some key, some seed =>
            if isBase64 key && isBase64 seed then
              if cfg.networks.isEmpty then
                (context1, .error (badRequest
                  "At least one network configuration must be provided"))
              else if decryptOk seed key then
                let context2 : Context := { wdk := some newInst }
                match cfg.networks.find? (fun nw => nw.2
                    && !(walletManagers.contains nw.1)) with
                | some nw =>
                  (context2, .error ⟨"No wallet manager found for network: "
                    ++ nw.1, "WDK_MANAGER_INIT"⟩)
                | none =>
                  match cfg.protocols with
                  | [] => (context2, .ok { status := "initialized" })
                  | proto :: _ =>
                    (context2, .error ⟨"No protocol manager found for protocol: "
                      ++ proto, "WDK_MANAGER_INIT"⟩)
              else
                (context1, .error (badRequest "Failed to decrypt seed"))
            else
              (context1, .error (badRequest "must be valid base64"))
          | _, _ =>
            (context1, .error (badRequest
              "(encryptionKey + encryptedSeed) must be provided"))

/-- `handlers.dispose` (`rpc-handlers.js` lines 527-534): if the Session
Context holds an instance, dispose it and clear the slot; in every case
return `{ status: 'disposed' }`. -/
def dispose (context : Context) : Context × StatusResult :=
  match context.wdk with
  | some _ => ({ wdk := none }, { status := "disposed" })
  | none => (context, { status := "disposed" })

end RpcHandlers

/-- C6 (counterexample): `initializeWDK` invoked with object params whose
required `config` field is missing, while the Session Context holds the
active instance 7: the call does return a `BAD_REQUEST` error, but the
existing instance has been disposed first — the final context differs from
the original, refuting "that existing instance is left unchanged". -/
theorem init_validation_counterexample :
    RpcHandlers.initializeWDK (fun _ => none) (fun _ => true) (fun _ _ => true)
        ⟨1, false⟩ (some ⟨none, none, none⟩) ⟨some ⟨7, false⟩⟩
      = (⟨some ⟨7, true⟩⟩,
          .error (RpcHandlers.badRequest "config must be a non-empty string"))
    ∧ (⟨some ⟨7, true⟩⟩ : RpcHandlers.Context) ≠ ⟨some ⟨7, false⟩⟩ :=
  ⟨rfl, by decide⟩

/-- C6 (amended): the initial "params must be an object" check fails with
`BAD_REQUEST` and no side effect; but when the Session Context already holds
an instance, every invocation with object params disposes it before field
validation — a `BAD_REQUEST` for a missing `config` still leaves the
existing instance disposed (and still in the slot).  The slot afterwards
holds either the disposed old instance (any failure path) or the fresh
instance (once decryption succeeded); the old instance never survives
undisposed. -/
theorem init_validation_amended (parse : String → Option RpcHandlers.WorkletConfig)
    (isBase64 : String → Bool) (decryptOk : String → String → Bool)
    (newInst : RpcHandlers.WdkInstance) (p : RpcHandlers.InitParams)
    (ctx : RpcHandlers.Context) (w : RpcHandlers.WdkInstance)
    (hw : ctx.wdk = some w) :
    (RpcHandlers.initializeWDK parse isBase64 decryptOk newInst none ctx
      = (ctx, .error (RpcHandlers.badRequest "Init must be an object")))
    ∧ ((RpcHandlers.initializeWDK parse isBase64 decryptOk newInst (some p) ctx).1.wdk
        = some { w with disposed := true }
      ∨ (RpcHandlers.initializeWDK parse isBase64 decryptOk newInst (some p) ctx).1.wdk
        = some newInst)
    ∧ (p.config = none →
        RpcHandlers.initializeWDK parse isBase64 decryptOk newInst (some p) ctx
          = ({ wdk := some { w with disposed := true } },
              .error (RpcHandlers.badRequest "config must be a non-empty string"))) := by
  rcases ctx with ⟨cw⟩
  simp only [RpcHandlers.Context.mk.injEq] at hw
  subst hw
  refine ⟨rfl, ?_, ?_⟩
  · unfold RpcHandlers.initializeWDK
    repeat' split
    all_goals simp_all
  · intro hc
    unfold RpcHandlers.initializeWDK
    simp only [hc]

/-- Witness for the amended C6 at a concrete input: missing `config` with
instance 7 active gives `BAD_REQUEST` with instance 7 disposed in the
slot. -/
theorem init_validation_amended_witness :
    RpcHandlers.initializeWDK (fun _ => none) (fun _ => true) (fun _ _ => true)
        ⟨1, false⟩ (some ⟨none, some "a", some "b"⟩) ⟨some ⟨7, false⟩⟩
      = (⟨some ⟨7, true⟩⟩,
          .error (RpcHandlers.badRequest "config must be a non-empty string")) :=
  (init_validation_amended (fun _ => none) (fun _ => true) (fun _ _ => true)
    ⟨1, false⟩ ⟨none, some "a", some "b"⟩ ⟨some ⟨7, false⟩⟩ ⟨7, false⟩ rfl).2.2 rfl

/-- C10: `dispose` is idempotent and total at the public interface: with an
empty slot it still succeeds with `{ status: 'disposed' }`; after any
dispose the Session Context slot is `none`; and a second dispose yields the
same final state and the same result as the first. -/
theorem dispose_idempotent (ctx : RpcHandlers.Context) :
    (RpcHandlers.dispose ctx).1.wdk = none
    ∧ (RpcHandlers.dispose ctx).2 = { status := "disposed" }
    ∧ RpcHandlers.dispose { wdk := none }
      = ({ wdk := none }, { status := "disposed" })
    ∧ RpcHandlers.dispose (RpcHandlers.dispose ctx).1
      = ((RpcHandlers.dispose ctx).1, (RpcHandlers.dispose ctx).2) := by
  rcases ctx with ⟨_ | w⟩ <;> exact ⟨rfl, rfl, rfl, rfl⟩

namespace Shamir

/-- The library `wdk-util-shamir-secret-sharing` used by
`handlers.splitMnemonic` / `handlers.combineShares` is not under the
sources.  Modelled from the spec: a (K,N) threshold scheme over a finite
field; we use the prime field with 257 elements, one polynomial per byte of
the deterministically encoded secret, shares evaluated at the nonzero
points `1..N` (`N ≤ 255 < 257`), and reconstruction by Lagrange
interpolation at 0. -/
abbrev F : Type := ZMod 257

instance : Fact (Nat.Prime 257) := ⟨by norm_num⟩

/-- Horner evaluation of the polynomial with coefficient list `cs`
(constant term first). -/
def evalPoly (cs : List F) (x : F) : F :=
  cs.foldr (fun a acc => a + x * acc) 0

/-- The x-coordinate of share `i`: the nonzero field point `i + 1`. -/
def shareX (i : ℕ) : F := ((i + 1 : ℕ) : F)

/-- Coefficients of the byte-`j` polynomial: the secret byte is the constant
term, followed by that byte's `K - 1` random coins. -/
def byteCoeffs (secret : List ℕ) (coins : List (List F)) (j : ℕ) : List F :=
  ((secret.getD j 0 : ℕ) : F) :: coins.getD j []

/-- Modelled from the spec: `split` — one share per point `1..N`, each share
carrying its (0-based) position and, for every byte of the secret, the
evaluation of that byte's random polynomial at the share's point. -/
def shamirSplit (secret : List ℕ) (coins : List (List F)) (N : ℕ) :
    List (ℕ × List F) :=
  (List.range N).map (fun i =>
    (i, (List.range secret.length).map
      (fun j => evalPoly (byteCoeffs secret coins j) (shareX i))))

/-- Modelled from the spec: `split` validates `2 ≤ K ≤ N ≤ 255` before any
share computation. -/
def shamirSplitChecked (secret : List ℕ) (N K : ℕ) (coins : List (List F)) :
    Except String (List (ℕ × List F)) :=
  if 2 ≤ K ∧ K ≤ N ∧ N ≤ 255 then .ok (shamirSplit secret coins N)
  else .error "threshold/shares constraint violated"

/-- Lagrange interpolation at 0 through the given points (computable). -/
def lagrange0 (pts : List (F × F)) : F :=
  ∑ i ∈ Finset.range pts.length,
    (pts.getD i (0, 0)).2 *
      ∏ k ∈ (Finset.range pts.length).erase i,
        (((pts.getD i (0, 0)).1 - (pts.getD k (0, 0)).1)⁻¹
          * (0 - (pts.getD k (0, 0)).1))

/-- Modelled from the spec: `combine` — requires at least 2 shares, then
reconstructs every byte by interpolating that byte's share values at 0. -/
def shamirCombine (shares : List (ℕ × List F)) : Except String (List ℕ) :=
  if shares.length < 2 then .error "At least 2 shares are required"
  else .ok ((List.range ((shares.headD (0, [])).2.length)).map
    (fun j => (lagrange0 (shares.map (fun s => (shareX s.1, s.2.getD j 0)))).val))

theorem getD_map_range {β : Type} (d : β) {n j : ℕ} (hj : j < n) (f : ℕ → β) :
    ((List.range n).map f).getD j d = f j := by
  simp [List.getD_eq_getElem?_getD, List.getElem?_map, List.getElem?_range hj]

theorem getD_map {α β : Type} (l : List α) (f : α → β) {i : ℕ} (d : β) (dl : α)
    (h : i < l.length) :
    (l.map f).getD i d = f (l.getD i dl) := by
  simp [List.getD_eq_getElem?_getD, List.getElem?_map, List.getElem?_eq_getElem h]

theorem range_map_getD (l : List ℕ) (d : ℕ) :
    (List.range l.length).map (fun j => l.getD j d) = l := by
  apply List.ext_getElem (by simp)
  intro i h1 h2
  simp [List.getD_eq_getElem?_getD, List.getElem?_eq_getElem h2]

theorem evalPoly_cons_zero (c : F) (cs : List F) : evalPoly (c :: cs) 0 = c := by
  simp [evalPoly]

theorem evalPoly_eq_eval (cs : List F) (x : F) :
    evalPoly cs x = Polynomial.eval x
      (∑ i ∈ Finset.range cs.length,
        Polynomial.C (cs.getD i 0) * Polynomial.X ^ i) := by
  induction cs with
  | nil => simp [evalPoly]
  | cons a cs ih =>
    have hshift : ∑ i ∈ Finset.range cs.length,
        Polynomial.C ((a :: cs).getD (i + 1) 0) * Polynomial.X ^ (i + 1)
        = (∑ i ∈ Finset.range cs.length,
            Polynomial.C (cs.getD i 0) * Polynomial.X ^ i) * Polynomial.X := by
      rw [Finset.sum_mul]
      refine Finset.sum_congr rfl fun i _ => ?_
      rw [List.getD_cons_succ, pow_succ, mul_assoc]
    rw [List.length_cons, Finset.sum_range_succ', hshift]
    simp only [List.getD_cons_zero, pow_zero, mul_one, Polynomial.eval_add,
      Polynomial.eval_mul, Polynomial.eval_C, Polynomial.eval_X]
    rw [← ih]
    show a + x * evalPoly cs x = evalPoly cs x * x + a
    ring

theorem degree_coeffs_lt (cs : List F) :
    (∑ i ∈ Finset.range cs.length,
      Polynomial.C (cs.getD i 0) * Polynomial.X ^ i).degree
      < ((cs.length : ℕ) : WithBot ℕ) := by
  refine lt_of_le_of_lt (Polynomial.degree_sum_le _ _) ?_
  rw [Finset.sup_lt_iff (by exact WithBot.bot_lt_coe _)]
  intro i hi
  refine lt_of_le_of_lt (Polynomial.degree_C_mul_X_pow_le _ _) ?_
  exact_mod_cast Finset.mem_range.mp hi

theorem lagrange0_eq_eval_interpolate (pts : List (F × F)) :
    lagrange0 pts = Polynomial.eval 0
      (Lagrange.interpolate (Finset.range pts.length)
        (fun i => (pts.getD i (0, 0)).1) (fun i => (pts.getD i (0, 0)).2)) := by
  rw [Lagrange.interpolate_apply, Polynomial.eval_finset_sum]
  refine Finset.sum_congr rfl fun i _ => ?_
  rw [Polynomial.eval_mul, Polynomial.eval_C, Lagrange.basis, Polynomial.eval_prod]
  refine congrArg _ (Finset.prod_congr rfl fun k _ => ?_)
  rw [Lagrange.basisDivisor, Polynomial.eval_mul, Polynomial.eval_C,
    Polynomial.eval_sub, Polynomial.eval_X, Polynomial.eval_C]

theorem lagrange0_recovers (f : Polynomial F) (pts : List (F × F))
    (hdeg : f.degree < ((pts.length : ℕ) : WithBot ℕ))
    (hinj : Set.InjOn (fun i => (pts.getD i (0, 0)).1)
      (Finset.range pts.length : Finset ℕ))
    (hval : ∀ i < pts.length,
      (pts.getD i (0, 0)).2 = f.eval ((pts.getD i (0, 0)).1)) :
    lagrange0 pts = f.eval 0 := by
  rw [lagrange0_eq_eval_interpolate]
  have hf : f = Lagrange.interpolate (Finset.range pts.length)
      (fun i => (pts.getD i (0, 0)).1) (fun i => (pts.getD i (0, 0)).2) := by
    refine Lagrange.eq_interpolate_of_eval_eq _ hinj ?_ ?_
    · rwa [Finset.card_range]
    · intro i hi
      exact (hval i (Finset.mem_range.mp hi)).symm
  rw [← hf]


theorem shamirSplit_length (secret : List ℕ) (coins : List (List F)) (N : ℕ) :
    (shamirSplit secret coins N).length = N := by
  simp [shamirSplit]

theorem shareX_inj {a b : ℕ} (ha : a < 256) (hb : b < 256)
    (h : shareX a = shareX b) : a = b := by
  have hv : ((a + 1 : ℕ) : F).val = ((b + 1 : ℕ) : F).val := by
    rw [show ((a + 1 : ℕ) : F) = shareX a from rfl,
      show ((b + 1 : ℕ) : F) = shareX b from rfl, h]
  rw [ZMod.val_cast_of_lt (by omega), ZMod.val_cast_of_lt (by omega)] at hv
  omega

/-- Any selection of at least `K` distinct shares out of `shamirSplit`'s `N`
shares reconstructs the secret byte sequence exactly. -/
theorem shamirCombine_subset (secret : List ℕ) (coins : List (List F))
    (N K : ℕ) (idxs : List ℕ)
    (hb : ∀ b ∈ secret, b < 256)
    (hcl : coins.length = secret.length)
    (hcK : ∀ c ∈ coins, c.length = K - 1)
    (hK2 : 2 ≤ K) (hKN : K ≤ N) (hN : N ≤ 255)
    (hnd : idxs.Nodup) (hmem : ∀ i ∈ idxs, i < N) (hlen : K ≤ idxs.length) :
    shamirCombine (idxs.map (fun i => (shamirSplit secret coins N).getD i (0, [])))
      = .ok secret := by
  have hsubset : idxs.map (fun i => (shamirSplit secret coins N).getD i (0, []))
      = idxs.map (fun i => (i, (List.range secret.length).map
          (fun j => evalPoly (byteCoeffs secret coins j) (shareX i)))) :=
    List.map_congr_left fun i hi => by
      unfold shamirSplit
      exact getD_map_range _ (hmem i hi) _
  rw [hsubset]
  obtain ⟨i0, rest, rfl⟩ : ∃ i0 rest, idxs = i0 :: rest := by
    cases idxs with
    | nil =>
      exfalso
      simp only [List.length_nil] at hlen
      omega
    | cons a l => exact ⟨a, l, rfl⟩
  rw [shamirCombine, if_neg (by
    simp only [List.length_map, List.length_cons]
    simp only [List.length_cons] at hlen
    omega)]
  have hhead : (((i0 :: rest).map (fun i => (i, (List.range secret.length).map
      (fun j => evalPoly (byteCoeffs secret coins j) (shareX i))))).headD
        (0, [])).2.length = secret.length := by
    simp
  rw [hhead]
  refine congrArg Except.ok ?_
  refine (List.map_congr_left fun j hj => ?_).trans (range_map_getD secret 0)
  have hjlt : j < secret.length := List.mem_range.mp hj
  have hpts : ((i0 :: rest).map (fun i => (i, (List.range secret.length).map
      (fun jj => evalPoly (byteCoeffs secret coins jj) (shareX i))))).map
        (fun s => (shareX s.1, s.2.getD j 0))
      = (i0 :: rest).map (fun i =>
          (shareX i, evalPoly (byteCoeffs secret coins j) (shareX i))) := by
    rw [List.map_map]
    refine List.map_congr_left fun i _ => ?_
    simp only [Function.comp_apply]
    rw [getD_map_range _ hjlt]
  rw [hpts]
  -- the byte-j polynomial
  have hcoinsmem : coins.getD j [] ∈ coins := by
    have hjc : j < coins.length := hcl ▸ hjlt
    rw [List.getD_eq_getElem?_getD, List.getElem?_eq_getElem hjc]
    exact List.getElem_mem hjc
  have hclen : (byteCoeffs secret coins j).length = K := by
    simp only [byteCoeffs, List.length_cons]
    have := hcK _ hcoinsmem
    omega
  have hrecover := lagrange0_recovers
    (∑ i ∈ Finset.range (byteCoeffs secret coins j).length,
      Polynomial.C ((byteCoeffs secret coins j).getD i 0) * Polynomial.X ^ i)
    ((i0 :: rest).map (fun i =>
      (shareX i, evalPoly (byteCoeffs secret coins j) (shareX i))))
    ?_ ?_ ?_
  · rw [hrecover, ← evalPoly_eq_eval]
    unfold byteCoeffs
    rw [evalPoly_cons_zero, ZMod.val_cast_of_lt]
    have : secret.getD j 0 ∈ secret := by
      rw [List.getD_eq_getElem?_getD, List.getElem?_eq_getElem hjlt]
      exact List.getElem_mem hjlt
    have := hb _ this
    omega
  · refine lt_of_lt_of_le (degree_coeffs_lt _) ?_
    rw [hclen, List.length_map]
    exact_mod_cast hlen
  · intro a ha b hbmem heq
    simp only [Finset.coe_range, Set.mem_Iio, List.length_map] at ha hbmem
    have hga : ∀ m (hm : m < (i0 :: rest).length),
        (((i0 :: rest).map (fun i => (shareX i,
          evalPoly (byteCoeffs secret coins j) (shareX i)))).getD m ((0 : F), (0 : F))).1
          = shareX ((i0 :: rest).getD m 0) := by
      intro m hm
      rw [getD_map _ _ _ 0 hm]
    simp only [] at heq
    rw [hga a ha, hga b hbmem] at heq
    have hia : (i0 :: rest).getD a 0 < 256 := by
      have : (i0 :: rest).getD a 0 ∈ (i0 :: rest) := by
        rw [List.getD_eq_getElem?_getD, List.getElem?_eq_getElem ha]
        exact List.getElem_mem ha
      have := hmem _ this
      omega
    have hib : (i0 :: rest).getD b 0 < 256 := by
      have : (i0 :: rest).getD b 0 ∈ (i0 :: rest) := by
        rw [List.getD_eq_getElem?_getD, List.getElem?_eq_getElem hbmem]
        exact List.getElem_mem hbmem
      have := hmem _ this
      omega
    have heqn := shareX_inj hia hib heq
    rw [List.getD_eq_getElem?_getD, List.getElem?_eq_getElem ha,
      List.getD_eq_getElem?_getD, List.getElem?_eq_getElem hbmem] at heqn
    simp only [Option.getD_some] at heqn
    have := (List.Nodup.get_inj_iff hnd).mp (by
      show (i0 :: rest).get ⟨a, ha⟩ = (i0 :: rest).get ⟨b, hbmem⟩
      simpa using heqn)
    exact congrArg Fin.val this
  · intro m hm
    rw [List.length_map] at hm
    have hgm : (((i0 :: rest).map (fun i => (shareX i,
        evalPoly (byteCoeffs secret coins j) (shareX i)))).getD m ((0 : F), (0 : F)))
        = (shareX ((i0 :: rest).getD m 0),
            evalPoly (byteCoeffs secret coins j) (shareX ((i0 :: rest).getD m 0))) := by
      rw [getD_map _ _ _ 0 hm]
    rw [hgm, ← evalPoly_eq_eval]


theorem lagrange0_pair_16_27 : lagrange0 [((1 : F), 6), ((2 : F), 7)] = 5 := by
  unfold lagrange0
  rw [show ([((1 : F), 6), ((2 : F), 7)] : List (F × F)).length = 2 from rfl]
  rw [Finset.sum_range_succ, Finset.sum_range_one]
  rw [show (Finset.range 2).erase 0 = {1} from by decide,
    show (Finset.range 2).erase 1 = {0} from by decide]
  rw [Finset.prod_singleton, Finset.prod_singleton]
  norm_num

end Shamir

/-- C9 (counterexample): with secret byte sequence `[5]`, a valid `(N,K) =
(3,3)` split and coin values `[1, 0]` (second random coefficient zero), the
produced shares are `(0,[6]), (1,[7]), (2,[8])`; combining only the first
two — a subset of size `K - 1 = 2`, accepted by `combine` since it has at
least 2 shares — returns `[5]`, the true secret.  So "combine on any subset
of size K-1 never returns the true secret s" is false: a K-1-sized subset
can reproduce the secret for unlucky coin values. -/
theorem shamir_threshold_counterexample :
    Shamir.shamirSplitChecked [5] 3 3 [[1, 0]] = .ok [(0, [6]), (1, [7]), (2, [8])]
    ∧ Shamir.shamirCombine [(0, [6]), (1, [7])] = .ok [5] := by
  constructor
  · rw [Shamir.shamirSplitChecked, if_pos (by omega)]
    exact congrArg Except.ok (by decide)
  · have hx : ([(0, [6]), (1, [7])] : List (ℕ × List Shamir.F)).map
        (fun s => (Shamir.shareX s.1, s.2.getD 0 0))
        = [((1 : Shamir.F), 6), ((2 : Shamir.F), 7)] := by decide
    calc Shamir.shamirCombine [(0, [6]), (1, [7])]
        = .ok [(Shamir.lagrange0 (([(0, [6]), (1, [7])] : List (ℕ × List Shamir.F)).map
            (fun s => (Shamir.shareX s.1, s.2.getD 0 0)))).val] := by
          rw [Shamir.shamirCombine, if_neg (by decide)]
          rfl
      _ = .ok [(Shamir.lagrange0 [((1 : Shamir.F), 6), ((2 : Shamir.F), 7)]).val] := by
          rw [hx]
      _ = .ok [(5 : Shamir.F).val] := by rw [Shamir.lagrange0_pair_16_27]
      _ = .ok [5] := congrArg Except.ok (by decide)

/-- C9 (amended, spec-modelled): for every secret byte sequence and valid
`(N,K)` with `2 ≤ K ≤ N ≤ 255`, `split` passes validation and returns
exactly `N` shares, and `combine` on any selection of `K` or more distinct
shares returns exactly the secret.  (The original claim's further assertion
that a subset of size `K - 1` never returns the true secret is dropped: it
fails for some coin values, see the counterexample — fewer than `K` shares
leave the secret undetermined, which is weaker than "never equal".) -/
theorem shamir_threshold_amended (secret : List ℕ) (coins : List (List Shamir.F))
    (N K : ℕ) (idxs : List ℕ)
    (hb : ∀ b ∈ secret, b < 256)
    (hcl : coins.length = secret.length)
    (hcK : ∀ c ∈ coins, c.length = K - 1)
    (hK2 : 2 ≤ K) (hKN : K ≤ N) (hN : N ≤ 255)
    (hnd : idxs.Nodup) (hmem : ∀ i ∈ idxs, i < N) (hlen : K ≤ idxs.length) :
    Shamir.shamirSplitChecked secret N K coins
      = .ok (Shamir.shamirSplit secret coins N)
    ∧ (Shamir.shamirSplit secret coins N).length = N
    ∧ Shamir.shamirCombine (idxs.map
        (fun i => (Shamir.shamirSplit secret coins N).getD i (0, [])))
      = .ok secret := by
  refine ⟨?_, Shamir.shamirSplit_length _ _ _,
    Shamir.shamirCombine_subset secret coins N K idxs hb hcl hcK hK2 hKN hN
      hnd hmem hlen⟩
  rw [Shamir.shamirSplitChecked, if_pos ⟨hK2, hKN, hN⟩]

/-- Witness for the amended C9 at a concrete input: all three shares of the
(3,3) split of `[5]` combine back to `[5]`. -/
theorem shamir_threshold_amended_witness :
    Shamir.shamirCombine ([0, 1, 2].map
        (fun i => (Shamir.shamirSplit [5] [[1, 0]] 3).getD i (0, [])))
      = .ok [5] :=
  (shamir_threshold_amended [5] [[1, 0]] 3 3 [0, 1, 2] (by decide) (by decide)
    (by decide) (by decide) (by decide) (by decide) (by decide) (by decide)
    (by decide)).2.2
